import Mathlib

/-!
Shallow embedding of `src/abrigo-animais.js` (class `AbrigoAnimais`), the
adoption-decision engine for an animal shelter: input parsing and validation,
per-animal eligibility (toy-subsequence match, with a set-containment rule for
the animal "Loco"), an allocation pass with tie-breaking and per-adopter
quotas, a reconciliation pass that can revoke Loco's placement, and sorted
result assembly.

Modelling conventions:
* a JavaScript string argument is `some s`; any non-string argument is `none`
  (the code only tests `typeof str !== 'string'`);
* `String.prototype.split(',')`, `trim()` and the array sort are rendered at
  the `List Char` level (`splitVirgula`, `trimChars`, `leNome`), because they
  coincide with the JS semantics on these inputs and stay kernel-reducible;
* the `try/catch` in `encontraPessoas` is rendered as `Except String`; the
  only internal fault the engine can raise (a catalog lookup of an unknown
  name inside `#processaAdocoes`, impossible after validation) is modelled by
  `Option`, and `none` is normalized to "Brinquedo inválido" exactly as the
  catch-all branch does;
* the JS result object `{lista}` / `{erro}` becomes `Except.ok` / `Except.error`;
* `Array.prototype.sort` with a `localeCompare` comparator is modelled as an
  insertion sort by code-unit order, which agrees with locale order on the
  seven catalog names (all ASCII, distinct); with unique keys every
  comparison sort produces the same output.
-/

namespace AbrigoAnimais

/-- One catalog entry: species (`tipo`) and ordered favorite toys
(`brinquedos`), from the `catalogo` object of the constructor. -/
structure AnimalInfo where
  tipo : String
  brinquedos : List String
deriving DecidableEq, Repr

/-- The fixed catalog of seven animals (`this.catalogo`); `none` plays the
role of an `undefined` property lookup. -/
def catalogo : String → Option AnimalInfo
  | "Rex" => some ⟨"cão", ["RATO", "BOLA"]⟩
  | "Mimi" => some ⟨"gato", ["BOLA", "LASER"]⟩
  | "Fofo" => some ⟨"gato", ["BOLA", "RATO", "LASER"]⟩
  | "Zero" => some ⟨"gato", ["RATO", "BOLA"]⟩
  | "Bola" => some ⟨"cão", ["CAIXA", "NOVELO"]⟩
  | "Bebe" => some ⟨"cão", ["LASER", "RATO", "BOLA"]⟩
  | "Loco" => some ⟨"jabuti", ["SKATE", "RATO"]⟩
  | _ => none

/-- The whitelist `this.brinquedosValidos` (a JS `Set`, modelled as a list
queried by membership). -/
def brinquedosValidos : List String :=
  ["RATO", "BOLA", "LASER", "CAIXA", "NOVELO", "SKATE"]

/-- `String.prototype.split(',')` on the character list: splitting the empty
string yields one empty chunk, and each comma opens a new chunk. -/
def splitVirgula : List Char → List (List Char)
  | [] => [[]]
  | c :: resto =>
    if c = ',' then [] :: splitVirgula resto
    else
      match splitVirgula resto with
      | [] => [[c]]
      | g :: gs => (c :: g) :: gs

/-- `String.prototype.trim()` on the character list: drop whitespace from both
ends. -/
def trimChars (s : List Char) : List Char :=
  ((s.dropWhile Char.isWhitespace).reverse.dropWhile Char.isWhitespace).reverse

/-- `#parseLista`: a non-string (`none`) or blank string becomes `[]`;
otherwise split on commas, trim each token and drop empty tokens. -/
def parseLista : Option String → List String
  | none => []
  | some str =>
    if trimChars str.data = [] then []
    else
      ((splitVirgula str.data).map (fun g => String.mk (trimChars g))).filter
        (fun s => 0 < s.length)

/-- Loop of `#validaBrinquedos`: `vistos` is the accumulated `Set` of already
seen items; a repeated or unknown toy fails the validation. -/
def validaBrinquedosAux : List String → List String → Bool
  | _, [] => true
  | vistos, item :: resto =>
    if vistos.contains item then false
    else if brinquedosValidos.contains item then
      validaBrinquedosAux (item :: vistos) resto
    else false

/-- `#validaBrinquedos` as a Boolean check (the JS throws "Brinquedo
inválido" exactly when this returns `false`). -/
def validaBrinquedos (lista : List String) : Bool :=
  validaBrinquedosAux [] lista

/-- Loop of `#validaAnimais`: a repeated or uncataloged name fails. -/
def validaAnimaisAux : List String → List String → Bool
  | _, [] => true
  | vistos, nome :: resto =>
    if vistos.contains nome then false
    else if (catalogo nome).isSome then validaAnimaisAux (nome :: vistos) resto
    else false

/-- `#validaAnimais` as a Boolean check (the JS throws "Animal inválido"
exactly when this returns `false`). -/
def validaAnimais (lista : List String) : Bool :=
  validaAnimaisAux [] lista

/-- Scan loop of `#contemSubsequencia`: the second argument is the part of
`padrao` still to be matched. -/
def contemSubsequenciaAux : List String → List String → Bool
  | _, [] => true
  | [], _ :: _ => false
  | item :: resto, p :: ps =>
    if item = p then contemSubsequenciaAux resto ps
    else contemSubsequenciaAux resto (p :: ps)

/-- `#contemSubsequencia lista padrao`: does `padrao` occur inside `lista` as
an order-preserving, not necessarily contiguous subsequence? -/
def contemSubsequencia (lista padrao : List String) : Bool :=
  if padrao.isEmpty then true else contemSubsequenciaAux lista padrao

/-- `#pessoaElegivelParaAnimal` (the person index and state are unused by the
source body and dropped): for "Loco" the person must own every favorite toy;
for every other animal the favorites must be a subsequence of the person's
toys. -/
def pessoaElegivelParaAnimal (favs toysPessoa : List String)
    (nomeAnimal : String) : Bool :=
  if nomeAnimal = "Loco" then favs.all (fun bj => toysPessoa.contains bj)
  else contemSubsequencia toysPessoa favs

/-- Per-person running state of `#processaAdocoes`. -/
structure PessoaEstado where
  total : Nat
  gatos : Nat
  possuiOutroAnimal : Bool
deriving DecidableEq, Repr

/-- The two-person state object `estado`. -/
structure Estado where
  pessoa1 : PessoaEstado
  pessoa2 : PessoaEstado
deriving DecidableEq, Repr

/-- `{ 1: {0,0,false}, 2: {0,0,false} }`. -/
def estadoInicial : Estado :=
  ⟨⟨0, 0, false⟩, ⟨0, 0, false⟩⟩

/-- `estado[i]` for `i ∈ {1, 2}`. -/
def Estado.pessoa (st : Estado) (i : Nat) : PessoaEstado :=
  if i = 1 then st.pessoa1 else st.pessoa2

/-- Write back `estado[i]`. -/
def Estado.atualiza (st : Estado) (i : Nat) (p : PessoaEstado) : Estado :=
  if i = 1 then { st with pessoa1 := p } else { st with pessoa2 := p }

/-- The destination string `pessoa ${vencedor}` of the template literal. -/
def pessoaLabel (i : Nat) : String :=
  if i = 1 then "pessoa 1" else "pessoa 2"

/-- The inventory of person `i` (the selection `vencedor === 1 ? p1Toys :
p2Toys` of the source). -/
def toysDe (p1Toys p2Toys : List String) (i : Nat) : List String :=
  if i = 1 then p1Toys else p2Toys

/-- One iteration of the allocation loop of `#processaAdocoes`, for the animal
`nome`: `none` models the exception a lookup of an uncataloged name would
raise (unreachable after validation). The accumulator carries the state and
the `destino` entries in insertion order. -/
def passoAdocao (p1Toys p2Toys : List String)
    (acc : Estado × List (String × String)) (nome : String) :
    Option (Estado × List (String × String)) :=
  match catalogo nome with
  | none => none
  | some info =>
    let fav := info.brinquedos
    let estado := acc.1
    let destino := acc.2
    let pode1 := pessoaElegivelParaAnimal fav p1Toys nome
    let pode2 := pessoaElegivelParaAnimal fav p2Toys nome
    if pode1 && pode2 then
      some (estado, destino ++ [(nome, "abrigo")])
    else
      match (if pode1 then some 1 else if pode2 then some 2 else none :
          Option Nat) with
      | none => some (estado, destino ++ [(nome, "abrigo")])
      | some vencedor =>
        if 3 ≤ (estado.pessoa vencedor).total then
          some (estado, destino ++ [(nome, "abrigo")])
        else if info.tipo = "gato" ∧ 1 ≤ (estado.pessoa vencedor).gatos then
          some (estado, destino ++ [(nome, "abrigo")])
        else
          some (estado.atualiza vencedor
            { total := (estado.pessoa vencedor).total + 1,
              gatos := (estado.pessoa vencedor).gatos +
                (if info.tipo = "gato" then 1 else 0),
              possuiOutroAnimal := true },
            destino ++ [(nome, pessoaLabel vencedor)])

/-- The whole allocation loop, threading state and `destino` over the given
processing order. -/
def alocacao (p1Toys p2Toys ordemAnimais : List String) :
    Option (Estado × List (String × String)) :=
  ordemAnimais.foldlM (passoAdocao p1Toys p2Toys) (estadoInicial, [])

/-- Body of the post-processing loop of `#processaAdocoes` for one `destino`
entry: only a non-shelter "Loco" entry is touched; if the winner lacks one of
Loco's toys or has no companion (`total < 2`), the placement is revoked and
the winner's total decremented. `precisa` is `catalogo['Loco'].brinquedos`. -/
def reconciliaEntrada (p1Toys p2Toys precisa : List String) (estado : Estado)
    (entry : String × String) : Estado × (String × String) :=
  if entry.1 = "Loco" then
    if entry.2 = "abrigo" then (estado, entry)
    else
      let vencedor : Nat := if entry.2 = "pessoa 1" then 1 else 2
      let setToys := if vencedor = 1 then p1Toys else p2Toys
      let temTodos := precisa.all (fun bj => setToys.contains bj)
      let possuiCompanhia := 2 ≤ (estado.pessoa vencedor).total
      if temTodos = true ∧ possuiCompanhia then (estado, entry)
      else
        (estado.atualiza vencedor
          { estado.pessoa vencedor with
            total := (estado.pessoa vencedor).total - 1 },
          (entry.1, "abrigo"))
  else (estado, entry)

/-- Fold step for the reconciliation loop: rebuild `destino` entry by entry,
threading the state. -/
def reconciliaLoco (p1Toys p2Toys precisa : List String)
    (acc : Estado × List (String × String)) (entry : String × String) :
    Estado × List (String × String) :=
  let r := reconciliaEntrada p1Toys p2Toys precisa acc.1 entry
  (r.1, acc.2 ++ [r.2])

/-- `#processaAdocoes`: the allocation loop followed by the Loco
reconciliation loop over the produced `destino` entries. -/
def processaAdocoes (p1Toys p2Toys ordemAnimais : List String) :
    Option (Estado × List (String × String)) :=
  match alocacao p1Toys p2Toys ordemAnimais with
  | none => none
  | some (estado, destino) =>
    match catalogo "Loco" with
    | none => none
    | some locoInfo =>
      some (destino.foldl (reconciliaLoco p1Toys p2Toys locoInfo.brinquedos)
        (estado, []))

/-- Code-unit lexicographic order on character lists; on the catalog's ASCII
names this agrees with the `localeCompare` comparator of the source. -/
def leNome : List Char → List Char → Bool
  | [], _ => true
  | _ :: _, [] => false
  | a :: as, b :: bs => if a = b then leNome as bs else decide (a < b)

/-- The sort order used on `destino` entries: by animal name. -/
def ordemSaida (a b : String × String) : Prop :=
  leNome a.1.data b.1.data = true

instance : DecidableRel ordemSaida := fun a b => by
  unfold ordemSaida; infer_instance

/-- Result assembly of `encontraPessoas`: sort the entries by animal name and
render each as `nome - destino`. -/
def montaLista (destino : List (String × String)) : List String :=
  (List.insertionSort ordemSaida destino).map (fun e => e.1 ++ " - " ++ e.2)

/-- `encontraPessoas`, the public entry point: parse the three inputs,
validate toys then animals (each failure short-circuits with its error
message), run the adoption engine and assemble the sorted output. -/
def encontraPessoas (pessoa1Str pessoa2Str ordemAnimaisStr : Option String) :
    Except String (List String) :=
  let pessoa1Toys := parseLista pessoa1Str
  let pessoa2Toys := parseLista pessoa2Str
  let ordemAnimais := parseLista ordemAnimaisStr
  if validaBrinquedos pessoa1Toys = false then Except.error "Brinquedo inválido"
  else if validaBrinquedos pessoa2Toys = false then
    Except.error "Brinquedo inválido"
  else if validaAnimais ordemAnimais = false then Except.error "Animal inválido"
  else
    match processaAdocoes pessoa1Toys pessoa2Toys ordemAnimais with
    | none => Except.error "Brinquedo inválido"
    | some r => Except.ok (montaLista r.2)

/-! ### The subsequence scan computes `List.Sublist` -/

theorem contemSubsequenciaAux_iff (l : List String) :
    ∀ p : List String, contemSubsequenciaAux l p = true ↔ p.Sublist l := by
  induction l with
  | nil =>
    intro p
    cases p with
    | nil => simp [contemSubsequenciaAux]
    | cons q qs => simp [contemSubsequenciaAux]
  | cons x xs ih =>
    intro p
    cases p with
    | nil => simp [contemSubsequenciaAux]
    | cons q qs =>
      by_cases hxq : x = q
      · subst hxq
        rw [contemSubsequenciaAux, if_pos rfl, ih qs, List.cons_sublist_cons]
      · rw [contemSubsequenciaAux, if_neg hxq, ih (q :: qs)]
        constructor
        · exact fun h => h.cons x
        · intro h
          cases h with
          | cons _ h => exact h
          | cons₂ _ h => exact absurd rfl hxq

theorem contemSubsequencia_iff (lista padrao : List String) :
    contemSubsequencia lista padrao = true ↔ padrao.Sublist lista := by
  cases padrao with
  | nil => simp [contemSubsequencia]
  | cons p ps => simp [contemSubsequencia, contemSubsequenciaAux_iff]

/-- C1: for every animal other than the specially-ruled "Loco" and every
inventory, eligibility holds iff the favorite-toy sequence occurs as an
order-preserving (not necessarily contiguous) subsequence of the inventory;
an empty favorite-toy sequence is trivially eligible. -/
theorem c1_elegibilidade_subsequencia (nome : String) (favs toys : List String)
    (h : nome ≠ "Loco") :
    (pessoaElegivelParaAnimal favs toys nome = true ↔ favs.Sublist toys) ∧
      pessoaElegivelParaAnimal [] toys nome = true := by
  constructor
  · rw [pessoaElegivelParaAnimal, if_neg h, contemSubsequencia_iff]
  · rw [pessoaElegivelParaAnimal, if_neg h]
    simp [contemSubsequencia]

theorem c1_testemunha :
    ("Rex" ≠ "Loco") ∧
      ((pessoaElegivelParaAnimal ["RATO", "BOLA"] ["RATO", "LASER", "BOLA"]
            "Rex" = true ↔
          (["RATO", "BOLA"] : List String).Sublist ["RATO", "LASER", "BOLA"]) ∧
        pessoaElegivelParaAnimal [] ["RATO", "LASER", "BOLA"] "Rex" = true) :=
  ⟨by decide, c1_elegibilidade_subsequencia "Rex" ["RATO", "BOLA"]
    ["RATO", "LASER", "BOLA"] (by decide)⟩

/-- C2: for the specially-ruled animal "Loco", eligibility holds iff the
inventory contains every favorite toy as a set — order irrelevant, no
subsequence constraint. -/
theorem c2_elegibilidade_loco (favs toys : List String) :
    pessoaElegivelParaAnimal favs toys "Loco" = true ↔
      ∀ bj ∈ favs, bj ∈ toys := by
  rw [pessoaElegivelParaAnimal, if_pos rfl]
  simp [List.all_eq_true]

/-! ### State-access helpers -/

theorem pessoa_atualiza_self (st : Estado) (i : Nat) (p : PessoaEstado)
    (hi : i = 1 ∨ i = 2) : (st.atualiza i p).pessoa i = p := by
  rcases hi with h | h <;> subst h <;> simp [Estado.atualiza, Estado.pessoa]

theorem pessoa_atualiza_other (st : Estado) (i j : Nat) (p : PessoaEstado)
    (hi : i = 1 ∨ i = 2) (hj : j = 1 ∨ j = 2) (hij : i ≠ j) :
    (st.atualiza i p).pessoa j = st.pessoa j := by
  rcases hi with h | h <;> rcases hj with h2 | h2 <;> subst h <;> subst h2 <;>
    first
      | exact absurd rfl hij
      | simp [Estado.atualiza, Estado.pessoa]

/-! ### Characterization of one allocation step -/

theorem passoAdocao_eq (p1Toys p2Toys : List String) (st : Estado)
    (d : List (String × String)) (nome : String)
    (res : Estado × List (String × String))
    (h : passoAdocao p1Toys p2Toys (st, d) nome = some res) :
    ∃ v, res.2 = d ++ [(nome, v)] ∧
      ((v = "abrigo" ∧ res.1 = st) ∨
        ∃ i, (i = 1 ∨ i = 2) ∧ v = pessoaLabel i ∧
          ∃ info, catalogo nome = some info ∧
            pessoaElegivelParaAnimal info.brinquedos (toysDe p1Toys p2Toys i)
                nome = true ∧
            (st.pessoa i).total < 3 ∧
            ¬(info.tipo = "gato" ∧ 1 ≤ (st.pessoa i).gatos) ∧
            res.1 = st.atualiza i
              { total := (st.pessoa i).total + 1,
                gatos := (st.pessoa i).gatos +
                  (if info.tipo = "gato" then 1 else 0),
                possuiOutroAnimal := true }) := by
  cases hcat : catalogo nome with
  | none => simp [passoAdocao, hcat] at h
  | some info =>
    simp only [passoAdocao, hcat] at h
    by_cases h1 : pessoaElegivelParaAnimal info.brinquedos p1Toys nome = true <;>
      by_cases h2 : pessoaElegivelParaAnimal info.brinquedos p2Toys nome = true
    · simp only [h1, h2, Bool.and_self, if_pos] at h
      injection h with h
      subst h
      exact ⟨"abrigo", rfl, Or.inl ⟨rfl, rfl⟩⟩
    · rw [Bool.not_eq_true] at h2
      simp only [h1, h2, Bool.and_false, Bool.false_eq_true, if_false,
        if_true] at h
      by_cases h3 : 3 ≤ (st.pessoa 1).total
      · simp only [if_pos h3] at h
        injection h with h
        subst h
        exact ⟨"abrigo", rfl, Or.inl ⟨rfl, rfl⟩⟩
      · simp only [if_neg h3] at h
        by_cases h4 : info.tipo = "gato" ∧ 1 ≤ (st.pessoa 1).gatos
        · simp only [if_pos h4] at h
          injection h with h
          subst h
          exact ⟨"abrigo", rfl, Or.inl ⟨rfl, rfl⟩⟩
        · simp only [if_neg h4] at h
          injection h with h
          subst h
          refine ⟨pessoaLabel 1, rfl, Or.inr ⟨1, Or.inl rfl, rfl,
            info, rfl, ?_, by omega, h4, rfl⟩⟩
          simpa [toysDe] using h1
    · rw [Bool.not_eq_true] at h1
      simp only [h1, h2, Bool.and_true, Bool.false_eq_true, if_false,
        if_true] at h
      by_cases h3 : 3 ≤ (st.pessoa 2).total
      · simp only [if_pos h3] at h
        injection h with h
        subst h
        exact ⟨"abrigo", rfl, Or.inl ⟨rfl, rfl⟩⟩
      · simp only [if_neg h3] at h
        by_cases h4 : info.tipo = "gato" ∧ 1 ≤ (st.pessoa 2).gatos
        · simp only [if_pos h4] at h
          injection h with h
          subst h
          exact ⟨"abrigo", rfl, Or.inl ⟨rfl, rfl⟩⟩
        · simp only [if_neg h4] at h
          injection h with h
          subst h
          refine ⟨pessoaLabel 2, rfl, Or.inr ⟨2, Or.inr rfl, rfl,
            info, rfl, ?_, by omega, h4, rfl⟩⟩
          simpa [toysDe] using h2
    · rw [Bool.not_eq_true] at h1
      rw [Bool.not_eq_true] at h2
      simp only [h1, h2, Bool.and_self, Bool.false_eq_true, if_false] at h
      injection h with h
      subst h
      exact ⟨"abrigo", rfl, Or.inl ⟨rfl, rfl⟩⟩

/-! ### Properties of the allocation fold -/

theorem foldlM_passo_keys (p1Toys p2Toys : List String) :
    ∀ (ordem : List String) (st : Estado) (d : List (String × String))
      (res : Estado × List (String × String)),
      List.foldlM (passoAdocao p1Toys p2Toys) (st, d) ordem = some res →
      res.2.map Prod.fst = d.map Prod.fst ++ ordem := by
  intro ordem
  induction ordem with
  | nil =>
    intro st d res h
    rw [List.foldlM_nil] at h
    injection h with h
    subst h
    simp
  | cons nome resto ih =>
    intro st d res h
    rw [List.foldlM_cons] at h
    cases hstep : passoAdocao p1Toys p2Toys (st, d) nome with
    | none => rw [hstep] at h; simp at h
    | some acc₂ =>
      rw [hstep] at h
      obtain ⟨v, hv, _⟩ := passoAdocao_eq _ _ _ _ _ _ hstep
      have := ih acc₂.1 acc₂.2 res h
      rw [hv] at this
      simpa using this

theorem foldlM_passo_entradas (p1Toys p2Toys : List String) :
    ∀ (ordem : List String) (st : Estado) (d : List (String × String))
      (res : Estado × List (String × String)),
      List.foldlM (passoAdocao p1Toys p2Toys) (st, d) ordem = some res →
      ∀ e ∈ res.2, e ∈ d ∨ e.2 = "abrigo" ∨
        ∃ i, (i = 1 ∨ i = 2) ∧ e.2 = pessoaLabel i ∧
          ∃ info, catalogo e.1 = some info ∧
            pessoaElegivelParaAnimal info.brinquedos (toysDe p1Toys p2Toys i)
              e.1 = true := by
  intro ordem
  induction ordem with
  | nil =>
    intro st d res h e he
    rw [List.foldlM_nil] at h
    injection h with h
    subst h
    exact Or.inl he
  | cons nome resto ih =>
    intro st d res h e he
    rw [List.foldlM_cons] at h
    cases hstep : passoAdocao p1Toys p2Toys (st, d) nome with
    | none => rw [hstep] at h; simp at h
    | some acc₂ =>
      rw [hstep] at h
      obtain ⟨v, hv, hcase⟩ := passoAdocao_eq _ _ _ _ _ _ hstep
      rcases ih acc₂.1 acc₂.2 res h e he with he₂ | hgood
      · rw [hv] at he₂
        rcases List.mem_append.1 he₂ with hd | hnew
        · exact Or.inl hd
        · have hee : e = (nome, v) := by simpa using hnew
          subst hee
          rcases hcase with ⟨habr, _⟩ | ⟨i, hi, hvp, info, hcat, helig, _⟩
          · exact Or.inr (Or.inl habr)
          · exact Or.inr (Or.inr ⟨i, hi, hvp, info, hcat, helig⟩)
      · exact Or.inr hgood

theorem foldlM_passo_total (p1Toys p2Toys : List String) :
    ∀ (ordem : List String) (st : Estado) (d : List (String × String))
      (res : Estado × List (String × String)),
      List.foldlM (passoAdocao p1Toys p2Toys) (st, d) ordem = some res →
      ∀ i, i = 1 ∨ i = 2 →
        (res.1.pessoa i).total + d.countP (fun e => e.2 == pessoaLabel i) =
          (st.pessoa i).total + res.2.countP (fun e => e.2 == pessoaLabel i) := by
  intro ordem
  induction ordem with
  | nil =>
    intro st d res h i hi
    rw [List.foldlM_nil] at h
    injection h with h
    subst h
    rfl
  | cons nome resto ih =>
    intro st d res h i hi
    rw [List.foldlM_cons] at h
    cases hstep : passoAdocao p1Toys p2Toys (st, d) nome with
    | none => rw [hstep] at h; simp at h
    | some acc₂ =>
      rw [hstep] at h
      obtain ⟨v, hv, hcase⟩ := passoAdocao_eq _ _ _ _ _ _ hstep
      have hrec := ih acc₂.1 acc₂.2 res h i hi
      rw [hv] at hrec
      rcases hcase with ⟨habr, hst⟩ | ⟨j, hj, hvp, info, _, _, _, _, hst⟩
      · have hne : ("abrigo" == pessoaLabel i) = false := by
          rcases hi with h1 | h1 <;> subst h1 <;> decide
        rw [hst] at hrec
        rw [List.countP_append] at hrec
        simp [habr, hne, List.countP_cons] at hrec
        omega
      · rw [hst] at hrec
        rw [List.countP_append] at hrec
        by_cases hij : j = i
        · subst hij
          rw [pessoa_atualiza_self _ _ _ hj] at hrec
          simp [hvp, List.countP_cons] at hrec
          omega
        · rw [pessoa_atualiza_other _ _ _ _ hj hi hij] at hrec
          have hne : (pessoaLabel j == pessoaLabel i) = false := by
            rcases hj with h1 | h1 <;> rcases hi with h2 | h2 <;>
              subst h1 <;> subst h2 <;> first | exact absurd rfl hij | decide
          simp [hvp, hne, List.countP_cons] at hrec
          omega

theorem foldlM_passo_limites (p1Toys p2Toys : List String) :
    ∀ (ordem : List String) (st : Estado) (d : List (String × String))
      (res : Estado × List (String × String)),
      List.foldlM (passoAdocao p1Toys p2Toys) (st, d) ordem = some res →
      ∀ i, i = 1 ∨ i = 2 →
        (st.pessoa i).total ≤ 3 → (st.pessoa i).gatos ≤ 1 →
        (res.1.pessoa i).total ≤ 3 ∧ (res.1.pessoa i).gatos ≤ 1 := by
  intro ordem
  induction ordem with
  | nil =>
    intro st d res h i hi ht hg
    rw [List.foldlM_nil] at h
    injection h with h
    subst h
    exact ⟨ht, hg⟩
  | cons nome resto ih =>
    intro st d res h i hi ht hg
    rw [List.foldlM_cons] at h
    cases hstep : passoAdocao p1Toys p2Toys (st, d) nome with
    | none => rw [hstep] at h; simp at h
    | some acc₂ =>
      rw [hstep] at h
      obtain ⟨v, hv, hcase⟩ := passoAdocao_eq _ _ _ _ _ _ hstep
      rcases hcase with ⟨_, hst⟩ | ⟨j, hj, _, info, _, _, hlt, hgat, hst⟩
      · exact ih acc₂.1 acc₂.2 res h i hi (hst ▸ ht) (hst ▸ hg)
      · by_cases hij : j = i
        · subst hij
          refine ih acc₂.1 acc₂.2 res h j hj ?_ ?_
          · rw [hst, pessoa_atualiza_self _ _ _ hj]
            show (st.pessoa j).total + 1 ≤ 3
            omega
          · rw [hst, pessoa_atualiza_self _ _ _ hj]
            by_cases hgato : info.tipo = "gato"
            · have : (st.pessoa j).gatos = 0 := by
                rcases Nat.eq_zero_or_pos (st.pessoa j).gatos with h0 | h0
                · exact h0
                · exact absurd ⟨hgato, h0⟩ hgat
              simp [this, hgato]
            · simp [hgato]
              exact hg
        · refine ih acc₂.1 acc₂.2 res h i hi ?_ ?_
          · rw [hst, pessoa_atualiza_other _ _ _ _ hj hi hij]
            exact ht
          · rw [hst, pessoa_atualiza_other _ _ _ _ hj hi hij]
            exact hg

/-! ### Properties of the reconciliation fold -/

theorem reconciliaEntrada_fst (p1Toys p2Toys precisa : List String)
    (st : Estado) (e : String × String) :
    (reconciliaEntrada p1Toys p2Toys precisa st e).2.1 = e.1 := by
  unfold reconciliaEntrada
  split
  · split
    · rfl
    · dsimp only
      split <;> split <;> split <;> rfl
  · rfl

theorem reconciliaEntrada_snd (p1Toys p2Toys precisa : List String)
    (st : Estado) (e : String × String) :
    (reconciliaEntrada p1Toys p2Toys precisa st e).2.2 = e.2 ∨
      (reconciliaEntrada p1Toys p2Toys precisa st e).2.2 = "abrigo" := by
  unfold reconciliaEntrada
  split
  · split
    · exact Or.inl rfl
    · dsimp only
      split <;> split <;> split <;>
        first
          | exact Or.inl rfl
          | exact Or.inr rfl
  · exact Or.inl rfl

theorem reconciliaEntrada_loco_abrigo (p1Toys p2Toys precisa : List String)
    (st : Estado) :
    reconciliaEntrada p1Toys p2Toys precisa st ("Loco", "abrigo") =
      (st, ("Loco", "abrigo")) := rfl

theorem reconciliaEntrada_loco (p1Toys p2Toys precisa : List String)
    (st : Estado) (i : Nat) (hi : i = 1 ∨ i = 2) :
    reconciliaEntrada p1Toys p2Toys precisa st ("Loco", pessoaLabel i) =
      if precisa.all (fun bj => (toysDe p1Toys p2Toys i).contains bj) = true ∧
          2 ≤ (st.pessoa i).total then
        (st, ("Loco", pessoaLabel i))
      else
        (st.atualiza i
          { st.pessoa i with total := (st.pessoa i).total - 1 },
          ("Loco", "abrigo")) := by
  rcases hi with h | h <;> subst h <;>
    simp [reconciliaEntrada, pessoaLabel, toysDe]

theorem reconcilia_foldl_sem_loco (p1Toys p2Toys precisa : List String) :
    ∀ (l : List (String × String)) (st : Estado)
      (out : List (String × String)),
      (∀ e ∈ l, e.1 ≠ "Loco") →
      l.foldl (reconciliaLoco p1Toys p2Toys precisa) (st, out) =
        (st, out ++ l) := by
  intro l
  induction l with
  | nil => intro st out _; simp
  | cons e resto ih =>
    intro st out h
    rw [List.foldl_cons]
    have he : e.1 ≠ "Loco" := h e (List.mem_cons_self e resto)
    have hstep : reconciliaLoco p1Toys p2Toys precisa (st, out) e =
        (st, out ++ [e]) := by
      simp [reconciliaLoco, reconciliaEntrada, he]
    rw [hstep, ih st (out ++ [e]) (fun x hx => h x (List.mem_cons_of_mem _ hx))]
    simp

theorem reconcilia_foldl_keys (p1Toys p2Toys precisa : List String) :
    ∀ (l : List (String × String)) (st : Estado)
      (out : List (String × String)),
      ((l.foldl (reconciliaLoco p1Toys p2Toys precisa) (st, out)).2).map
          Prod.fst =
        out.map Prod.fst ++ l.map Prod.fst := by
  intro l
  induction l with
  | nil => intro st out; simp
  | cons e resto ih =>
    intro st out
    rw [List.foldl_cons]
    have hstep : reconciliaLoco p1Toys p2Toys precisa (st, out) e =
        ((reconciliaEntrada p1Toys p2Toys precisa st e).1,
          out ++ [(reconciliaEntrada p1Toys p2Toys precisa st e).2]) := rfl
    rw [hstep, ih]
    simp [reconciliaEntrada_fst]

theorem reconcilia_foldl_labels (p1Toys p2Toys precisa : List String) :
    ∀ (l : List (String × String)) (st : Estado)
      (out : List (String × String)),
      (∀ e ∈ out, e.2 = "abrigo" ∨ e.2 = "pessoa 1" ∨ e.2 = "pessoa 2") →
      (∀ e ∈ l, e.2 = "abrigo" ∨ e.2 = "pessoa 1" ∨ e.2 = "pessoa 2") →
      ∀ e ∈ (l.foldl (reconciliaLoco p1Toys p2Toys precisa) (st, out)).2,
        e.2 = "abrigo" ∨ e.2 = "pessoa 1" ∨ e.2 = "pessoa 2" := by
  intro l
  induction l with
  | nil => intro st out hout _ e he; exact hout e he
  | cons x resto ih =>
    intro st out hout hl e he
    rw [List.foldl_cons] at he
    have hstep : reconciliaLoco p1Toys p2Toys precisa (st, out) x =
        ((reconciliaEntrada p1Toys p2Toys precisa st x).1,
          out ++ [(reconciliaEntrada p1Toys p2Toys precisa st x).2]) := rfl
    rw [hstep] at he
    refine ih _ _ ?_ (fun y hy => hl y (List.mem_cons_of_mem _ hy)) e he
    intro y hy
    rcases List.mem_append.1 hy with hy₁ | hy₂
    · exact hout y hy₁
    · have hyx : y = (reconciliaEntrada p1Toys p2Toys precisa st x).2 := by
        simpa using hy₂
      subst hyx
      rcases reconciliaEntrada_snd p1Toys p2Toys precisa st x with hk | hk
      · rw [hk]
        exact hl x (List.mem_cons_self x resto)
      · rw [hk]
        exact Or.inl rfl

theorem reconcilia_foldl_decomp (p1Toys p2Toys precisa : List String)
    (pre post : List (String × String)) (v : String) (st : Estado)
    (hpre : ∀ e ∈ pre, e.1 ≠ "Loco") (hpost : ∀ e ∈ post, e.1 ≠ "Loco") :
    (pre ++ ("Loco", v) :: post).foldl
        (reconciliaLoco p1Toys p2Toys precisa) (st, []) =
      ((reconciliaEntrada p1Toys p2Toys precisa st ("Loco", v)).1,
        pre ++ (reconciliaEntrada p1Toys p2Toys precisa st ("Loco", v)).2 ::
          post) := by
  rw [List.foldl_append]
  rw [reconcilia_foldl_sem_loco _ _ _ pre st [] hpre]
  rw [List.foldl_cons]
  have hstep : reconciliaLoco p1Toys p2Toys precisa (st, [] ++ pre)
      ("Loco", v) =
      ((reconciliaEntrada p1Toys p2Toys precisa st ("Loco", v)).1,
        ([] ++ pre) ++ [(reconciliaEntrada p1Toys p2Toys precisa st
          ("Loco", v)).2]) := rfl
  rw [hstep]
  rw [reconcilia_foldl_sem_loco _ _ _ post _ _ hpost]
  simp

/-! ### Derived facts about `alocacao` and `processaAdocoes` -/

theorem alocacao_keys (p1Toys p2Toys ordem : List String)
    (res : Estado × List (String × String))
    (h : alocacao p1Toys p2Toys ordem = some res) :
    res.2.map Prod.fst = ordem := by
  unfold alocacao at h
  simpa using foldlM_passo_keys p1Toys p2Toys ordem estadoInicial [] res h

theorem alocacao_total (p1Toys p2Toys ordem : List String)
    (res : Estado × List (String × String))
    (h : alocacao p1Toys p2Toys ordem = some res) (i : Nat)
    (hi : i = 1 ∨ i = 2) :
    (res.1.pessoa i).total =
      res.2.countP (fun e => e.2 == pessoaLabel i) := by
  unfold alocacao at h
  have := foldlM_passo_total p1Toys p2Toys ordem estadoInicial [] res h i hi
  rcases hi with h1 | h1 <;> subst h1 <;>
    simpa [estadoInicial, Estado.pessoa] using this

theorem reconciliaEntrada_estado (p1Toys p2Toys precisa : List String)
    (st : Estado) (e : String × String) :
    (reconciliaEntrada p1Toys p2Toys precisa st e).1 = st ∨
      ∃ i, (i = 1 ∨ i = 2) ∧
        (reconciliaEntrada p1Toys p2Toys precisa st e).1 =
          st.atualiza i
            { st.pessoa i with total := (st.pessoa i).total - 1 } := by
  unfold reconciliaEntrada
  split
  · split
    · exact Or.inl rfl
    · dsimp only
      split <;> split <;> split <;>
        first
          | exact Or.inl rfl
          | exact Or.inr ⟨1, Or.inl rfl, rfl⟩
          | exact Or.inr ⟨2, Or.inr rfl, rfl⟩
  · exact Or.inl rfl

theorem atualiza_total_le (st : Estado) (i j : Nat) (hi : i = 1 ∨ i = 2)
    (hj : j = 1 ∨ j = 2) :
    ((st.atualiza i
        { st.pessoa i with total := (st.pessoa i).total - 1 }).pessoa j).total ≤
      (st.pessoa j).total := by
  by_cases hij : i = j
  · subst hij
    rw [pessoa_atualiza_self _ _ _ hi]
    exact Nat.sub_le _ _
  · rw [pessoa_atualiza_other _ _ _ _ hi hj hij]

theorem atualiza_gatos_eq (st : Estado) (i j : Nat) (hi : i = 1 ∨ i = 2)
    (hj : j = 1 ∨ j = 2) :
    ((st.atualiza i
        { st.pessoa i with total := (st.pessoa i).total - 1 }).pessoa j).gatos =
      (st.pessoa j).gatos := by
  by_cases hij : i = j
  · subst hij
    rw [pessoa_atualiza_self _ _ _ hi]
  · rw [pessoa_atualiza_other _ _ _ _ hi hj hij]

theorem reconcilia_foldl_total_le (p1Toys p2Toys precisa : List String) :
    ∀ (l : List (String × String)) (st : Estado)
      (out : List (String × String)) (j : Nat), j = 1 ∨ j = 2 →
      (((l.foldl (reconciliaLoco p1Toys p2Toys precisa) (st, out)).1).pessoa
          j).total ≤ (st.pessoa j).total ∧
      (((l.foldl (reconciliaLoco p1Toys p2Toys precisa) (st, out)).1).pessoa
          j).gatos = (st.pessoa j).gatos := by
  intro l
  induction l with
  | nil => intro st out j _; exact ⟨le_refl _, rfl⟩
  | cons e resto ih =>
    intro st out j hj
    rw [List.foldl_cons]
    have hstep : reconciliaLoco p1Toys p2Toys precisa (st, out) e =
        ((reconciliaEntrada p1Toys p2Toys precisa st e).1,
          out ++ [(reconciliaEntrada p1Toys p2Toys precisa st e).2]) := rfl
    rw [hstep]
    rcases reconciliaEntrada_estado p1Toys p2Toys precisa st e with hse | hse
    · rw [hse]
      exact ih st _ j hj
    · obtain ⟨i, hi, hse⟩ := hse
      rw [hse]
      have hrec := ih (st.atualiza i
          { st.pessoa i with total := (st.pessoa i).total - 1 })
        (out ++ [(reconciliaEntrada p1Toys p2Toys precisa st e).2]) j hj
      exact ⟨le_trans hrec.1 (atualiza_total_le st i j hi hj),
        hrec.2.trans (atualiza_gatos_eq st i j hi hj)⟩

theorem processa_decomp (p1Toys p2Toys ordem : List String)
    (st : Estado) (dest : List (String × String)) (v : String)
    (hnd : ordem.Nodup)
    (ha : alocacao p1Toys p2Toys ordem = some (st, dest))
    (hmem : ("Loco", v) ∈ dest) :
    ∃ pre post,
      dest = pre ++ ("Loco", v) :: post ∧
      (∀ e ∈ pre, e.1 ≠ "Loco") ∧ (∀ e ∈ post, e.1 ≠ "Loco") ∧
      processaAdocoes p1Toys p2Toys ordem =
        some ((reconciliaEntrada p1Toys p2Toys ["SKATE", "RATO"] st
            ("Loco", v)).1,
          pre ++ (reconciliaEntrada p1Toys p2Toys ["SKATE", "RATO"] st
            ("Loco", v)).2 :: post) := by
  obtain ⟨pre, post, hdest⟩ := List.append_of_mem hmem
  have hkeys : dest.map Prod.fst = ordem := alocacao_keys _ _ _ _ ha
  have hnd2 : (pre.map Prod.fst ++ "Loco" :: post.map Prod.fst).Nodup := by
    have : dest.map Prod.fst = pre.map Prod.fst ++ "Loco" :: post.map Prod.fst := by
      rw [hdest]; simp
    rw [hkeys] at this
    rw [← this]
    exact hnd
  rcases List.nodup_append.1 hnd2 with ⟨_, hndcons, hdisj⟩
  have hpost : "Loco" ∉ post.map Prod.fst := (List.nodup_cons.1 hndcons).1
  have hpre : "Loco" ∉ pre.map Prod.fst := fun hc =>
    hdisj hc (List.mem_cons_self _ _)
  have hpre' : ∀ e ∈ pre, e.1 ≠ "Loco" := by
    intro e he heq
    exact hpre (heq ▸ List.mem_map_of_mem Prod.fst he)
  have hpost' : ∀ e ∈ post, e.1 ≠ "Loco" := by
    intro e he heq
    exact hpost (heq ▸ List.mem_map_of_mem Prod.fst he)
  refine ⟨pre, post, hdest, hpre', hpost', ?_⟩
  have hL : catalogo "Loco" = some ⟨"jabuti", ["SKATE", "RATO"]⟩ := rfl
  simp only [processaAdocoes, ha, hL]
  rw [hdest, reconcilia_foldl_decomp p1Toys p2Toys _ pre post v st hpre' hpost']

theorem pessoaLabel_ne_abrigo (i : Nat) (hi : i = 1 ∨ i = 2) :
    pessoaLabel i ≠ "abrigo" := by
  rcases hi with h | h <;> subst h <;> decide

theorem pessoaLabel_inj (i j : Nat) (hi : i = 1 ∨ i = 2) (hj : j = 1 ∨ j = 2)
    (h : pessoaLabel i = pessoaLabel j) : i = j := by
  rcases hi with h1 | h1 <;> rcases hj with h2 | h2 <;> subst h1 <;>
    subst h2 <;> first | rfl | exact absurd h (by decide)

theorem alocacao_entradas (p1Toys p2Toys ordem : List String)
    (res : Estado × List (String × String))
    (h : alocacao p1Toys p2Toys ordem = some res) :
    ∀ e ∈ res.2, e.2 = "abrigo" ∨
      ∃ i, (i = 1 ∨ i = 2) ∧ e.2 = pessoaLabel i ∧
        ∃ info, catalogo e.1 = some info ∧
          pessoaElegivelParaAnimal info.brinquedos (toysDe p1Toys p2Toys i)
            e.1 = true := by
  intro e he
  unfold alocacao at h
  rcases foldlM_passo_entradas p1Toys p2Toys ordem estadoInicial [] res h e he
    with h0 | hgood
  · simp at h0
  · exact hgood

theorem processa_sem_loco (p1Toys p2Toys ordem : List String)
    (st : Estado) (dest : List (String × String))
    (ha : alocacao p1Toys p2Toys ordem = some (st, dest))
    (hno : ∀ e ∈ dest, e.1 ≠ "Loco") :
    processaAdocoes p1Toys p2Toys ordem = some (st, dest) := by
  have hL : catalogo "Loco" = some ⟨"jabuti", ["SKATE", "RATO"]⟩ := rfl
  simp only [processaAdocoes, ha, hL]
  rw [reconcilia_foldl_sem_loco _ _ _ dest st [] hno]
  simp

theorem dest_loco_temTodos (p1Toys p2Toys ordem : List String)
    (st : Estado) (dest : List (String × String)) (i : Nat)
    (ha : alocacao p1Toys p2Toys ordem = some (st, dest))
    (hi : i = 1 ∨ i = 2)
    (hmem : ("Loco", pessoaLabel i) ∈ dest) :
    List.all ["SKATE", "RATO"]
      (fun bj => (toysDe p1Toys p2Toys i).contains bj) = true := by
  rcases alocacao_entradas p1Toys p2Toys ordem (st, dest) ha
      ("Loco", pessoaLabel i) hmem with habr | ⟨j, hj, hlab, info, hcat, helig⟩
  · exact absurd habr (pessoaLabel_ne_abrigo i hi)
  · have hij : i = j := pessoaLabel_inj i j hi hj hlab
    subst hij
    have hinfo : info = ⟨"jabuti", ["SKATE", "RATO"]⟩ := by
      have hL : catalogo "Loco" = some (⟨"jabuti", ["SKATE", "RATO"]⟩ :
          AnimalInfo) := rfl
      exact (Option.some.inj (hL.symm.trans hcat)).symm
    subst hinfo
    rw [pessoaElegivelParaAnimal, if_pos rfl] at helig
    exact helig

/-- C3: "Loco" ends with adopter `i` only if that adopter's inventory contains
every favorite toy of "Loco" and the adopter's `total` *after the whole
allocation pass* (hence counting animals processed after "Loco" in the given
order) is at least 2; if the pass placed "Loco" but one of the two conditions
fails at reconciliation, the placement is revoked to the shelter and the
adopter's `total` is decremented by exactly 1 (from a value that is at least
1). -/
theorem c3_reconciliacao_loco (p1Toys p2Toys ordem : List String)
    (st : Estado) (dest : List (String × String))
    (resF : Estado × List (String × String)) (i : Nat)
    (hnd : ordem.Nodup)
    (ha : alocacao p1Toys p2Toys ordem = some (st, dest))
    (hp : processaAdocoes p1Toys p2Toys ordem = some resF)
    (hi : i = 1 ∨ i = 2) :
    (("Loco", pessoaLabel i) ∈ resF.2 →
      List.all ["SKATE", "RATO"]
          (fun bj => (toysDe p1Toys p2Toys i).contains bj) = true ∧
        2 ≤ (st.pessoa i).total) ∧
    (("Loco", pessoaLabel i) ∈ dest →
      ¬(List.all ["SKATE", "RATO"]
            (fun bj => (toysDe p1Toys p2Toys i).contains bj) = true ∧
          2 ≤ (st.pessoa i).total) →
      ("Loco", "abrigo") ∈ resF.2 ∧ 1 ≤ (st.pessoa i).total ∧
        (resF.1.pessoa i).total = (st.pessoa i).total - 1) := by
  constructor
  · intro hmemF
    by_cases hE : ∃ w, ("Loco", w) ∈ dest
    · obtain ⟨w, hw⟩ := hE
      obtain ⟨pre, post, hdest, hpre, hpost, hproc⟩ :=
        processa_decomp p1Toys p2Toys ordem st dest w hnd ha hw
      rw [hproc] at hp
      injection hp with hp
      subst hp
      rcases List.mem_append.1 hmemF with hpre₂ | hrest
      · exact absurd rfl (hpre _ hpre₂)
      · rcases List.mem_cons.1 hrest with heq | hpost₂
        · rcases alocacao_entradas p1Toys p2Toys ordem (st, dest) ha
              ("Loco", w) hw with habr | ⟨j, hj, hlab, info, hcat, helig⟩
          · have hwabr : w = "abrigo" := habr
            subst hwabr
            rw [reconciliaEntrada_loco_abrigo] at heq
            have : pessoaLabel i = "abrigo" := congrArg Prod.snd heq
            exact absurd this (pessoaLabel_ne_abrigo i hi)
          · have hwlab : w = pessoaLabel j := hlab
            subst hwlab
            have hinfo : info = ⟨"jabuti", ["SKATE", "RATO"]⟩ := by
              have hL : catalogo "Loco" = some (⟨"jabuti", ["SKATE", "RATO"]⟩ :
                  AnimalInfo) := rfl
              exact (Option.some.inj (hL.symm.trans hcat)).symm
            subst hinfo
            rw [pessoaElegivelParaAnimal, if_pos rfl] at helig
            rw [reconciliaEntrada_loco _ _ _ _ j hj] at heq
            by_cases hcond : List.all ["SKATE", "RATO"]
                (fun bj => (toysDe p1Toys p2Toys j).contains bj) = true ∧
                2 ≤ (st.pessoa j).total
            · rw [if_pos hcond] at heq
              have : pessoaLabel i = pessoaLabel j := congrArg Prod.snd heq
              have hij : i = j := pessoaLabel_inj i j hi hj this
              subst hij
              exact hcond
            · rw [if_neg hcond] at heq
              have : pessoaLabel i = "abrigo" := congrArg Prod.snd heq
              exact absurd this (pessoaLabel_ne_abrigo i hi)
        · exact absurd rfl (hpost _ hpost₂)
    · have hno : ∀ e ∈ dest, e.1 ≠ "Loco" := by
        intro e he heq
        apply hE
        refine ⟨e.2, ?_⟩
        have hee : ("Loco", e.2) = e := by
          rw [← heq]
        rw [hee]
        exact he
      have hps := processa_sem_loco p1Toys p2Toys ordem st dest ha hno
      rw [hps] at hp
      injection hp with hp
      rw [← hp] at hmemF
      exact absurd ⟨pessoaLabel i, hmemF⟩ hE
  · intro hmem hfail
    obtain ⟨pre, post, hdest, hpre, hpost, hproc⟩ :=
      processa_decomp p1Toys p2Toys ordem st dest (pessoaLabel i) hnd ha hmem
    rw [hproc] at hp
    injection hp with hp
    subst hp
    rw [reconciliaEntrada_loco _ _ _ _ i hi, if_neg hfail]
    refine ⟨List.mem_append.2 (Or.inr (List.mem_cons_self _ _)), ?_, ?_⟩
    · have hcount := alocacao_total p1Toys p2Toys ordem (st, dest) ha i hi
      have hposi : 0 < dest.countP (fun e => e.2 == pessoaLabel i) :=
        List.countP_pos_iff.2 ⟨_, hmem, by simp⟩
      simp only at hcount
      omega
    · dsimp only
      rw [pessoa_atualiza_self _ _ _ hi]

theorem c3_testemunha :
    (["Loco", "Rex"] : List String).Nodup ∧
    ((("Loco", pessoaLabel 1) ∈
        [(("Loco" : String), ("pessoa 1" : String)), ("Rex", "pessoa 1")] →
      List.all ["SKATE", "RATO"]
          (fun bj =>
            (toysDe ["SKATE", "RATO", "BOLA"] ["LASER"] 1).contains bj) =
            true ∧
        2 ≤ ((⟨⟨2, 0, true⟩, ⟨0, 0, false⟩⟩ : Estado).pessoa 1).total) ∧
    (("Loco", pessoaLabel 1) ∈
        [(("Loco" : String), ("pessoa 1" : String)), ("Rex", "pessoa 1")] →
      ¬(List.all ["SKATE", "RATO"]
            (fun bj =>
              (toysDe ["SKATE", "RATO", "BOLA"] ["LASER"] 1).contains bj) =
              true ∧
          2 ≤ ((⟨⟨2, 0, true⟩, ⟨0, 0, false⟩⟩ : Estado).pessoa 1).total) →
      ("Loco", "abrigo") ∈
          [(("Loco" : String), ("pessoa 1" : String)), ("Rex", "pessoa 1")] ∧
        1 ≤ ((⟨⟨2, 0, true⟩, ⟨0, 0, false⟩⟩ : Estado).pessoa 1).total ∧
        (((⟨⟨2, 0, true⟩, ⟨0, 0, false⟩⟩, [(("Loco" : String),
            ("pessoa 1" : String)), ("Rex", "pessoa 1")]) :
            Estado × List (String × String)).1.pessoa 1).total =
          ((⟨⟨2, 0, true⟩, ⟨0, 0, false⟩⟩ : Estado).pessoa 1).total - 1)) :=
  ⟨by decide,
    c3_reconciliacao_loco ["SKATE", "RATO", "BOLA"] ["LASER"] ["Loco", "Rex"]
      ⟨⟨2, 0, true⟩, ⟨0, 0, false⟩⟩
      [("Loco", "pessoa 1"), ("Rex", "pessoa 1")]
      (⟨⟨2, 0, true⟩, ⟨0, 0, false⟩⟩,
        [("Loco", "pessoa 1"), ("Rex", "pessoa 1")]) 1
      (by decide) (by rfl) (by rfl) (Or.inl rfl)⟩

/-- C4: during the allocation pass, if both adopters are eligible for the
current animal, the step sends it to the shelter and leaves both adopters'
state untouched — for every running state and accumulated placements, hence
regardless of the animal's position in the processing order. -/
theorem c4_empate_vai_para_abrigo (p1Toys p2Toys : List String) (st : Estado)
    (d : List (String × String)) (nome : String) (info : AnimalInfo)
    (hcat : catalogo nome = some info)
    (h1 : pessoaElegivelParaAnimal info.brinquedos p1Toys nome = true)
    (h2 : pessoaElegivelParaAnimal info.brinquedos p2Toys nome = true) :
    passoAdocao p1Toys p2Toys (st, d) nome =
      some (st, d ++ [(nome, "abrigo")]) := by
  simp only [passoAdocao, hcat, h1, h2, Bool.and_self, if_true]

theorem c4_testemunha :
    pessoaElegivelParaAnimal ["RATO", "BOLA"] ["RATO", "BOLA"] "Zero" =
        true ∧
      passoAdocao ["RATO", "BOLA"] ["RATO", "BOLA"] (estadoInicial, [])
          "Zero" = some (estadoInicial, [("Zero", "abrigo")]) :=
  ⟨by decide,
    c4_empate_vai_para_abrigo ["RATO", "BOLA"] ["RATO", "BOLA"]
      estadoInicial [] "Zero" ⟨"gato", ["RATO", "BOLA"]⟩ rfl (by decide)
      (by decide)⟩

/-- C5: throughout every run each adopter's `total` never exceeds 3 and
`gatos` never exceeds 1; moreover a sole eligible candidate whose `total` is
already 3, or who already holds a cat when the animal is a cat, is refused:
the animal goes to the shelter and the candidate's state is unchanged. -/
theorem c5_quotas :
    (∀ (p1Toys p2Toys ordem : List String)
        (res : Estado × List (String × String)),
        processaAdocoes p1Toys p2Toys ordem = some res →
        ∀ i, i = 1 ∨ i = 2 →
          (res.1.pessoa i).total ≤ 3 ∧ (res.1.pessoa i).gatos ≤ 1) ∧
    (∀ (p1Toys p2Toys : List String) (st : Estado)
        (d : List (String × String)) (nome : String) (info : AnimalInfo),
        catalogo nome = some info →
        pessoaElegivelParaAnimal info.brinquedos p1Toys nome = true →
        pessoaElegivelParaAnimal info.brinquedos p2Toys nome = false →
        3 ≤ (st.pessoa 1).total →
        passoAdocao p1Toys p2Toys (st, d) nome =
          some (st, d ++ [(nome, "abrigo")])) ∧
    (∀ (p1Toys p2Toys : List String) (st : Estado)
        (d : List (String × String)) (nome : String) (info : AnimalInfo),
        catalogo nome = some info →
        pessoaElegivelParaAnimal info.brinquedos p1Toys nome = false →
        pessoaElegivelParaAnimal info.brinquedos p2Toys nome = true →
        3 ≤ (st.pessoa 2).total →
        passoAdocao p1Toys p2Toys (st, d) nome =
          some (st, d ++ [(nome, "abrigo")])) ∧
    (∀ (p1Toys p2Toys : List String) (st : Estado)
        (d : List (String × String)) (nome : String) (info : AnimalInfo),
        catalogo nome = some info →
        pessoaElegivelParaAnimal info.brinquedos p1Toys nome = true →
        pessoaElegivelParaAnimal info.brinquedos p2Toys nome = false →
        (st.pessoa 1).total < 3 →
        info.tipo = "gato" → 1 ≤ (st.pessoa 1).gatos →
        passoAdocao p1Toys p2Toys (st, d) nome =
          some (st, d ++ [(nome, "abrigo")])) ∧
    (∀ (p1Toys p2Toys : List String) (st : Estado)
        (d : List (String × String)) (nome : String) (info : AnimalInfo),
        catalogo nome = some info →
        pessoaElegivelParaAnimal info.brinquedos p1Toys nome = false →
        pessoaElegivelParaAnimal info.brinquedos p2Toys nome = true →
        (st.pessoa 2).total < 3 →
        info.tipo = "gato" → 1 ≤ (st.pessoa 2).gatos →
        passoAdocao p1Toys p2Toys (st, d) nome =
          some (st, d ++ [(nome, "abrigo")])) := by
  refine ⟨?_, ?_, ?_, ?_, ?_⟩
  · intro p1Toys p2Toys ordem res hp i hi
    cases halloc : alocacao p1Toys p2Toys ordem with
    | none => simp [processaAdocoes, halloc] at hp
    | some sd =>
      obtain ⟨st, dest⟩ := sd
      have hL : catalogo "Loco" = some ⟨"jabuti", ["SKATE", "RATO"]⟩ := rfl
      simp only [processaAdocoes, halloc, hL] at hp
      injection hp with hp
      subst hp
      have hbound : (st.pessoa i).total ≤ 3 ∧ (st.pessoa i).gatos ≤ 1 := by
        unfold alocacao at halloc
        refine foldlM_passo_limites p1Toys p2Toys ordem estadoInicial []
          (st, dest) halloc i hi ?_ ?_
        · rcases hi with h | h <;> subst h <;> decide
        · rcases hi with h | h <;> subst h <;> decide
      have hrec := reconcilia_foldl_total_le p1Toys p2Toys ["SKATE", "RATO"]
        dest st [] i hi
      refine ⟨le_trans hrec.1 hbound.1, ?_⟩
      rw [hrec.2]
      exact hbound.2
  · intro p1Toys p2Toys st d nome info hcat h1 h2 hquota
    simp [passoAdocao, hcat, h1, h2, hquota]
  · intro p1Toys p2Toys st d nome info hcat h1 h2 hquota
    simp [passoAdocao, hcat, h1, h2, hquota]
  · intro p1Toys p2Toys st d nome info hcat h1 h2 hlt hgato hgatos
    simp [passoAdocao, hcat, h1, h2, Nat.not_le.2 hlt, hgato, hgatos]
  · intro p1Toys p2Toys st d nome info hcat h1 h2 hlt hgato hgatos
    simp [passoAdocao, hcat, h1, h2, Nat.not_le.2 hlt, hgato, hgatos]

theorem c5_testemunha :
    ((((⟨⟨1, 0, true⟩, ⟨0, 0, false⟩⟩, [(("Rex" : String),
        ("pessoa 1" : String))]) :
        Estado × List (String × String)).1.pessoa 1).total ≤ 3 ∧
      (((⟨⟨1, 0, true⟩, ⟨0, 0, false⟩⟩, [(("Rex" : String),
        ("pessoa 1" : String))]) :
        Estado × List (String × String)).1.pessoa 1).gatos ≤ 1) :=
  c5_quotas.1 ["RATO", "BOLA"] [] ["Rex"]
    (⟨⟨1, 0, true⟩, ⟨0, 0, false⟩⟩, [("Rex", "pessoa 1")]) (by rfl) 1
    (Or.inl rfl)

/-- C10: whenever the allocation pass places "Loco" with adopter `i`, that
adopter's inventory already contains every favorite toy of "Loco" (the pass
used the same set-containment rule), so the reconciliation's recomputed toy
check can never fail on its own: the final output keeps "Loco" with `i` iff
the adopter's post-pass `total` is at least 2. -/
theorem c10_revogacao_apenas_companhia (p1Toys p2Toys ordem : List String)
    (st : Estado) (dest : List (String × String))
    (resF : Estado × List (String × String)) (i : Nat)
    (hnd : ordem.Nodup)
    (ha : alocacao p1Toys p2Toys ordem = some (st, dest))
    (hp : processaAdocoes p1Toys p2Toys ordem = some resF)
    (hi : i = 1 ∨ i = 2)
    (hmem : ("Loco", pessoaLabel i) ∈ dest) :
    List.all ["SKATE", "RATO"]
        (fun bj => (toysDe p1Toys p2Toys i).contains bj) = true ∧
      (("Loco", pessoaLabel i) ∈ resF.2 ↔ 2 ≤ (st.pessoa i).total) := by
  have hall := dest_loco_temTodos p1Toys p2Toys ordem st dest i ha hi hmem
  refine ⟨hall, ?_⟩
  obtain ⟨pre, post, hdest, hpre, hpost, hproc⟩ :=
    processa_decomp p1Toys p2Toys ordem st dest (pessoaLabel i) hnd ha hmem
  rw [hproc] at hp
  injection hp with hp
  subst hp
  rw [reconciliaEntrada_loco _ _ _ _ i hi]
  by_cases htot : 2 ≤ (st.pessoa i).total
  · rw [if_pos ⟨hall, htot⟩]
    constructor
    · intro _
      exact htot
    · intro _
      exact List.mem_append.2 (Or.inr (List.mem_cons_self _ _))
  · rw [if_neg (fun hc => htot hc.2)]
    constructor
    · intro hmemF
      exfalso
      rcases List.mem_append.1 hmemF with hp₂ | hr
      · exact absurd rfl (hpre _ hp₂)
      · rcases List.mem_cons.1 hr with heq | hp₃
        · have : pessoaLabel i = "abrigo" := congrArg Prod.snd heq
          exact absurd this (pessoaLabel_ne_abrigo i hi)
        · exact absurd rfl (hpost _ hp₃)
    · intro h
      exact absurd h htot

theorem c10_testemunha :
    List.all ["SKATE", "RATO"]
        (fun bj => (toysDe ["SKATE", "RATO"] ["LASER"] 1).contains bj) =
          true ∧
      (("Loco", pessoaLabel 1) ∈
          (((⟨⟨0, 0, true⟩, ⟨0, 0, false⟩⟩, [(("Loco" : String),
            ("abrigo" : String))]) : Estado × List (String × String))).2 ↔
        2 ≤ ((⟨⟨1, 0, true⟩, ⟨0, 0, false⟩⟩ : Estado).pessoa 1).total) :=
  c10_revogacao_apenas_companhia ["SKATE", "RATO"] ["LASER"] ["Loco"]
    ⟨⟨1, 0, true⟩, ⟨0, 0, false⟩⟩ [("Loco", "pessoa 1")]
    (⟨⟨0, 0, true⟩, ⟨0, 0, false⟩⟩, [("Loco", "abrigo")]) 1
    (by decide) (by rfl) (by rfl) (Or.inl rfl) (by decide)

/-! ### Validation -/

theorem validaBrinquedosAux_iff :
    ∀ (l vistos : List String),
      validaBrinquedosAux vistos l = true ↔
        l.Nodup ∧ (∀ x ∈ l, x ∈ brinquedosValidos) ∧ ∀ x ∈ l, x ∉ vistos := by
  intro l
  induction l with
  | nil => intro vistos; simp [validaBrinquedosAux]
  | cons item resto ih =>
    intro vistos
    rw [validaBrinquedosAux]
    by_cases hv : item ∈ vistos
    · rw [if_pos (show (vistos.contains item) = true by simpa using hv)]
      simp only [Bool.false_eq_true, false_iff]
      rintro ⟨_, _, hnv⟩
      exact absurd hv (hnv item (List.mem_cons_self _ _))
    · rw [if_neg (show ¬(vistos.contains item) = true by simpa using hv)]
      by_cases hval : item ∈ brinquedosValidos
      · rw [if_pos (show (brinquedosValidos.contains item) = true by
          simpa using hval)]
        rw [ih (item :: vistos)]
        constructor
        · rintro ⟨hnd, hvr, hnv⟩
          refine ⟨List.nodup_cons.2
            ⟨fun hc => (hnv _ hc) (List.mem_cons_self _ _), hnd⟩, ?_, ?_⟩
          · intro x hx
            rcases List.mem_cons.1 hx with rfl | hx₂
            · exact hval
            · exact hvr x hx₂
          · intro x hx
            rcases List.mem_cons.1 hx with rfl | hx₂
            · exact hv
            · exact fun hc => hnv x hx₂ (List.mem_cons_of_mem _ hc)
        · rintro ⟨hnd, hvr, hnv⟩
          have hnd2 := List.nodup_cons.1 hnd
          refine ⟨hnd2.2, fun x hx => hvr x (List.mem_cons_of_mem _ hx), ?_⟩
          intro x hx hmemc
          rcases List.mem_cons.1 hmemc with rfl | hc
          · exact hnd2.1 hx
          · exact hnv x (List.mem_cons_of_mem _ hx) hc
      · rw [if_neg (show ¬(brinquedosValidos.contains item) = true by
          simpa using hval)]
        simp only [Bool.false_eq_true, false_iff]
        rintro ⟨_, hvr, _⟩
        exact hval (hvr item (List.mem_cons_self _ _))

theorem validaBrinquedos_iff (l : List String) :
    validaBrinquedos l = true ↔
      l.Nodup ∧ ∀ x ∈ l, x ∈ brinquedosValidos := by
  rw [validaBrinquedos, validaBrinquedosAux_iff]
  simp

theorem validaAnimaisAux_iff :
    ∀ (l vistos : List String),
      validaAnimaisAux vistos l = true ↔
        l.Nodup ∧ (∀ x ∈ l, (catalogo x).isSome = true) ∧
          ∀ x ∈ l, x ∉ vistos := by
  intro l
  induction l with
  | nil => intro vistos; simp [validaAnimaisAux]
  | cons nome resto ih =>
    intro vistos
    rw [validaAnimaisAux]
    by_cases hv : nome ∈ vistos
    · rw [if_pos (show (vistos.contains nome) = true by simpa using hv)]
      simp only [Bool.false_eq_true, false_iff]
      rintro ⟨_, _, hnv⟩
      exact absurd hv (hnv nome (List.mem_cons_self _ _))
    · rw [if_neg (show ¬(vistos.contains nome) = true by simpa using hv)]
      by_cases hval : (catalogo nome).isSome = true
      · rw [if_pos hval]
        rw [ih (nome :: vistos)]
        constructor
        · rintro ⟨hnd, hvr, hnv⟩
          refine ⟨List.nodup_cons.2
            ⟨fun hc => (hnv _ hc) (List.mem_cons_self _ _), hnd⟩, ?_, ?_⟩
          · intro x hx
            rcases List.mem_cons.1 hx with rfl | hx₂
            · exact hval
            · exact hvr x hx₂
          · intro x hx
            rcases List.mem_cons.1 hx with rfl | hx₂
            · exact hv
            · exact fun hc => hnv x hx₂ (List.mem_cons_of_mem _ hc)
        · rintro ⟨hnd, hvr, hnv⟩
          have hnd2 := List.nodup_cons.1 hnd
          refine ⟨hnd2.2, fun x hx => hvr x (List.mem_cons_of_mem _ hx), ?_⟩
          intro x hx hmemc
          rcases List.mem_cons.1 hmemc with rfl | hc
          · exact hnd2.1 hx
          · exact hnv x (List.mem_cons_of_mem _ hx) hc
      · rw [if_neg hval]
        simp only [Bool.false_eq_true, false_iff]
        rintro ⟨_, hvr, _⟩
        exact hval (hvr nome (List.mem_cons_self _ _))

theorem validaAnimais_iff (l : List String) :
    validaAnimais l = true ↔
      l.Nodup ∧ ∀ x ∈ l, (catalogo x).isSome = true := by
  rw [validaAnimais, validaAnimaisAux_iff]
  simp

/-- C6: toy validation fails exactly on a duplicate or unknown toy token,
animal validation fails exactly on a duplicate or uncataloged name, the
checks run before allocation, and a failing call returns exactly the
corresponding single error code (toy failures yield "Brinquedo inválido",
animal failures yield "Animal inválido") with no placement list. -/
theorem c6_validacao (s1 s2 s3 : Option String) (l : List String) :
    (validaBrinquedos l = true ↔
      l.Nodup ∧ ∀ x ∈ l, x ∈ brinquedosValidos) ∧
    (validaAnimais l = true ↔
      l.Nodup ∧ ∀ x ∈ l, (catalogo x).isSome = true) ∧
    (validaBrinquedos (parseLista s1) = false ∨
        validaBrinquedos (parseLista s2) = false →
      encontraPessoas s1 s2 s3 = Except.error "Brinquedo inválido") ∧
    (validaBrinquedos (parseLista s1) = true →
      validaBrinquedos (parseLista s2) = true →
      validaAnimais (parseLista s3) = false →
      encontraPessoas s1 s2 s3 = Except.error "Animal inválido") := by
  refine ⟨validaBrinquedos_iff l, validaAnimais_iff l, ?_, ?_⟩
  · intro h
    rcases h with h | h
    · simp [encontraPessoas, h]
    · cases hb1 : validaBrinquedos (parseLista s1) with
      | false => simp [encontraPessoas, hb1]
      | true => simp [encontraPessoas, hb1, h]
  · intro hb1 hb2 han
    simp [encontraPessoas, hb1, hb2, han]

theorem c6_testemunha :
    encontraPessoas (some "RATO,RATO") (some "") (some "Rex") =
      Except.error "Brinquedo inválido" :=
  (c6_validacao (some "RATO,RATO") (some "") (some "Rex") []).2.2.1
    (Or.inl (by decide))

/-- C7 (counterexample to the claim as stated): calling the operation with
non-string arguments (modelled as `none`) does not fail with "Brinquedo
inválido" — it succeeds and returns an empty list. -/
theorem c7_contraexemplo :
    encontraPessoas none none none = Except.ok [] := rfl

/-- C7 (amended): a non-string argument is not an error: it is parsed as the
empty token list, so the call behaves exactly as with an empty string; the
operation only ever fails with one of the two enumerated error codes. -/
theorem c7_nao_string_como_vazio :
    (∀ s2 s3 : Option String,
      encontraPessoas none s2 s3 = encontraPessoas (some "") s2 s3) ∧
    (∀ (s1 s2 s3 : Option String) (e : String),
      encontraPessoas s1 s2 s3 = Except.error e →
      e = "Brinquedo inválido" ∨ e = "Animal inválido") := by
  constructor
  · intro s2 s3
    rfl
  · intro s1 s2 s3 e h
    unfold encontraPessoas at h
    dsimp only at h
    split at h
    · exact Or.inl (Except.error.inj h).symm
    · split at h
      · exact Or.inl (Except.error.inj h).symm
      · split at h
        · exact Or.inr (Except.error.inj h).symm
        · split at h
          · exact Or.inl (Except.error.inj h).symm
          · simp at h

theorem c7_testemunha :
    ("Brinquedo inválido" : String) = "Brinquedo inválido" ∨
      ("Brinquedo inválido" : String) = "Animal inválido" :=
  c7_nao_string_como_vazio.2 (some "XYZ") none none "Brinquedo inválido" rfl

/-- C8: an empty string or a non-string input is treated as an empty token
list (not an error), tokens are trimmed of surrounding whitespace, and
calling the operation with all three inputs empty succeeds and returns an
empty result list. -/
theorem c8_entradas_vazias_e_trim :
    parseLista none = [] ∧ parseLista (some "") = [] ∧
      parseLista (some "   ") = [] ∧
      parseLista (some " RATO ,  BOLA ") = ["RATO", "BOLA"] ∧
      encontraPessoas (some "") (some "") (some "") = Except.ok [] ∧
      encontraPessoas none none none = Except.ok [] :=
  ⟨rfl, rfl, by decide, by decide, rfl, rfl⟩

/-! ### Output assembly -/

theorem leNome_iff :
    ∀ xs ys : List Char, leNome xs ys = true ↔ ¬ List.lt ys xs := by
  intro xs
  induction xs with
  | nil =>
    intro ys
    constructor
    · intro _ h
      cases h
    · intro _
      rfl
  | cons x xs ih =>
    intro ys
    cases ys with
    | nil =>
      constructor
      · intro h
        exact Bool.noConfusion h
      · intro h
        exact absurd (List.lt.nil x xs) h
    | cons y ys =>
      rw [leNome]
      by_cases hxy : x = y
      · subst hxy
        rw [if_pos rfl, ih ys]
        constructor
        · intro h hlt
          cases hlt with
          | head _ _ hl => exact absurd hl (lt_irrefl x)
          | tail h1 h2 h3 => exact h h3
        · intro h hlt
          exact h (List.lt.tail (lt_irrefl x) (lt_irrefl x) hlt)
      · rw [if_neg hxy]
        rcases lt_or_gt_of_ne hxy with hlt | hgt
        · rw [decide_eq_true hlt]
          constructor
          · intro _ hcon
            cases hcon with
            | head _ _ hl => exact absurd hl (asymm hlt)
            | tail h1 h2 h3 => exact h2 hlt
          · intro _
            rfl
        · rw [decide_eq_false (asymm hgt)]
          constructor
          · intro h
            exact Bool.noConfusion h
          · intro h
            exact absurd (List.lt.head ys xs hgt) h

theorem ordemSaida_iff (a b : String × String) :
    ordemSaida a b ↔ a.1 ≤ b.1 := by
  rw [ordemSaida, leNome_iff, ← not_lt]
  apply not_congr
  rw [String.lt_iff_toList_lt, List.lt_iff_lex_lt]
  exact Iff.rfl

theorem processa_keys (p1Toys p2Toys ordem : List String)
    (res : Estado × List (String × String))
    (hp : processaAdocoes p1Toys p2Toys ordem = some res) :
    res.2.map Prod.fst = ordem := by
  cases halloc : alocacao p1Toys p2Toys ordem with
  | none => simp [processaAdocoes, halloc] at hp
  | some sd =>
    obtain ⟨st, dest⟩ := sd
    have hL : catalogo "Loco" = some ⟨"jabuti", ["SKATE", "RATO"]⟩ := rfl
    simp only [processaAdocoes, halloc, hL] at hp
    injection hp with hp
    subst hp
    rw [reconcilia_foldl_keys]
    simpa using alocacao_keys p1Toys p2Toys ordem (st, dest) halloc

theorem processa_labels (p1Toys p2Toys ordem : List String)
    (res : Estado × List (String × String))
    (hp : processaAdocoes p1Toys p2Toys ordem = some res) :
    ∀ e ∈ res.2, e.2 = "abrigo" ∨ e.2 = "pessoa 1" ∨ e.2 = "pessoa 2" := by
  cases halloc : alocacao p1Toys p2Toys ordem with
  | none => simp [processaAdocoes, halloc] at hp
  | some sd =>
    obtain ⟨st, dest⟩ := sd
    have hL : catalogo "Loco" = some ⟨"jabuti", ["SKATE", "RATO"]⟩ := rfl
    simp only [processaAdocoes, halloc, hL] at hp
    injection hp with hp
    subst hp
    refine reconcilia_foldl_labels p1Toys p2Toys _ dest st [] ?_ ?_
    · intro e he
      exact absurd he (List.not_mem_nil e)
    · intro e he
      rcases alocacao_entradas p1Toys p2Toys ordem (st, dest) halloc e he with
        habr | ⟨i, hi, hlab, _⟩
      · exact Or.inl habr
      · rcases hi with h | h <;> subst h
        · exact Or.inr (Or.inl hlab)
        · exact Or.inr (Or.inr hlab)

/-- C9: on success the result is the `"<nome> - <destino>"` rendering of a
pairing that has exactly one entry per animal of the processing order (its
first components are a permutation of the parsed order), is sorted by animal
name in ascending lexical order, and whose destinations are among the three
fixed labels "abrigo", "pessoa 1", "pessoa 2". -/
theorem c9_formato_saida (s1 s2 s3 : Option String) (saida : List String)
    (h : encontraPessoas s1 s2 s3 = Except.ok saida) :
    ∃ pares : List (String × String),
      saida = pares.map (fun e => e.1 ++ " - " ++ e.2) ∧
      (pares.map Prod.fst).Perm (parseLista s3) ∧
      pares.Pairwise (fun a b => a.1 ≤ b.1) ∧
      ∀ e ∈ pares, e.2 = "abrigo" ∨ e.2 = "pessoa 1" ∨ e.2 = "pessoa 2" := by
  unfold encontraPessoas at h
  dsimp only at h
  split at h
  · exact absurd h (by simp)
  · split at h
    · exact absurd h (by simp)
    · split at h
      · exact absurd h (by simp)
      · split at h
        · exact absurd h (by simp)
        · rename_i r hproc
          injection h with h
          refine ⟨List.insertionSort ordemSaida r.2, h.symm, ?_, ?_, ?_⟩
          · have hperm := List.perm_insertionSort ordemSaida r.2
            have hkeys := processa_keys _ _ _ r hproc
            rw [← hkeys]
            exact hperm.map Prod.fst
          · haveI : IsTotal (String × String) ordemSaida := ⟨by
              intro a b
              rw [ordemSaida_iff, ordemSaida_iff]
              exact le_total a.1 b.1⟩
            haveI : IsTrans (String × String) ordemSaida := ⟨by
              intro a b c hab hbc
              rw [ordemSaida_iff] at *
              exact le_trans hab hbc⟩
            have hs := List.sorted_insertionSort ordemSaida r.2
            exact hs.imp (fun hab => (ordemSaida_iff _ _).1 hab)
          · intro e he
            have hmem := (List.perm_insertionSort ordemSaida r.2).subset he
            exact processa_labels _ _ _ r hproc e hmem

theorem c9_testemunha :
    ∃ pares : List (String × String),
      (["Fofo - abrigo", "Rex - pessoa 1"] : List String) =
          pares.map (fun e => e.1 ++ " - " ++ e.2) ∧
        (pares.map Prod.fst).Perm (parseLista (some "Rex,Fofo")) ∧
        pares.Pairwise (fun a b => a.1 ≤ b.1) ∧
        ∀ e ∈ pares,
          e.2 = "abrigo" ∨ e.2 = "pessoa 1" ∨ e.2 = "pessoa 2" :=
  c9_formato_saida (some "RATO,BOLA") (some "RATO,NOVELO") (some "Rex,Fofo")
    ["Fofo - abrigo", "Rex - pessoa 1"] rfl

end AbrigoAnimais
